import Mathlib

/-!
Verification of the code-chunk evaluation wrapper (`src/eval/chunkers/chonkie_chunk.py`)
against its specification.

The wrapper's own code (size metric definitions, language resolution from the file
extension, offset-to-line mapping, result assembly) is embedded directly from the
Python source.  The chunking core itself (syntax segmentation and greedy packing) lives
in the external `chonkie` library, whose code is not part of this repository; those
components are modelled from the specification (sections 4.1 and 4.2), as noted on each
definition.

Python strings are modelled as `List Char` (`Text`); machine integers do not overflow
in any code path considered here, so `Nat`/`Int` are used directly.
-/

deriving instance DecidableEq for Except

namespace CodeChunk

/-- Source text, modelled as the list of its characters. -/
abbrev Text := List Char

/-- Embedding of `count_nws` (source lines 14-16): count the characters of `text` that
are not whitespace.  Python's `str.isspace` is modelled by `Char.isWhitespace`. -/
def count_nws (text : Text) : Nat :=
  (text.filter (fun c => !c.isWhitespace)).length

/-- Embedding of the token counter passed to `CodeChunker` at source line 60
(`lambda x: len(x)`): the raw character length of the text. -/
def tokenCounter (text : Text) : Nat :=
  text.length

/-- Embedding of the extension computation at source line 32:
`filepath.rsplit(".", 1)[-1].lower() if "." in filepath else ""`.  The part after the
last dot is the reversed longest dot-free suffix of the reversed filepath. -/
def extOf (filepath : Text) : Text :=
  if '.' ∈ filepath then
    ((filepath.reverse.takeWhile (fun c => c ≠ '.')).reverse).map Char.toLower
  else []

/-- Embedding of `lang_map` (source lines 33-52) as an association list. -/
def lang_map : List (Text × Text) :=
  [("py".data, "python".data), ("js".data, "javascript".data),
   ("ts".data, "typescript".data), ("tsx".data, "tsx".data),
   ("jsx".data, "javascript".data), ("rs".data, "rust".data), ("go".data, "go".data),
   ("java".data, "java".data), ("c".data, "c".data), ("cpp".data, "cpp".data),
   ("h".data, "c".data), ("hpp".data, "cpp".data), ("rb".data, "ruby".data),
   ("php".data, "php".data), ("cs".data, "c_sharp".data),
   ("swift".data, "swift".data), ("kt".data, "kotlin".data),
   ("scala".data, "scala".data)]

/-- Embedding of the language resolution at source line 54:
`language = lang_map.get(ext, "python")`. -/
def langOf (filepath : Text) : Text :=
  (lang_map.lookup (extOf filepath)).getD "python".data

/-- Modelled from the spec: the Syntax Segmenter (section 4.1) in the external chonkie
library is not part of this repository.  It is modelled by the spec's guaranteed
line-based fallback segmentation: a boundary at the start of every line.  Here the
segmentation is represented directly by the unit texts between consecutive boundaries,
i.e. the physical lines of the text with their trailing newline attached. -/
def splitLinesKeepNl : Text → List Text
  | [] => []
  | c :: cs =>
    if c = '\n' then [c] :: splitLinesKeepNl cs
    else
      match splitLinesKeepNl cs with
      | [] => [[c]]
      | l :: ls => (c :: l) :: ls

/-- Modelled from the spec: the Syntax Segmenter contract `segment(text, language)`
(section 4.1).  The grammar-based path is external to this repository; every language
is modelled by the line-based fallback, which the spec guarantees as the behaviour for
unknown languages and parse failures. -/
def segmentText (text : Text) (_language : Text) : List Text :=
  splitLinesKeepNl text

/-- Modelled from the spec: the last-resort raw split of an oversized atomic unit
(section 4.2 step 3): a plain character-count split at the budget boundary, producing
consecutive pieces of `b` characters each (the last piece possibly shorter). -/
def rawSplit (b : Nat) (t : Text) : List Text :=
  match t with
  | [] => []
  | c :: cs => (c :: cs.take (b - 1)) :: rawSplit b (cs.drop (b - 1))
termination_by t.length
decreasing_by simp [List.length_drop]; omega

/-- Modelled from the spec: the Greedy Chunk Packer loop (section 4.2).  `w` is the
current window's text; each unit `u` is appended while the measured candidate stays
within budget; on overflow a non-empty window is closed as a chunk and the unit is
re-evaluated against an empty window; a unit oversized on its own is raw-split, its
pieces flagged as forced (`true`). -/
def packGo (m : Text → Nat) (b : Nat) : Text → List Text → List (Text × Bool)
  | w, [] => if w = [] then [] else [(w, false)]
  | w, u :: us =>
    if m (w ++ u) ≤ b then
      packGo m b (w ++ u) us
    else if w = [] then
      (rawSplit b u).map (fun p => (p, true)) ++ packGo m b [] us
    else
      (w, false) ::
        (if m u ≤ b then packGo m b u us
         else (rawSplit b u).map (fun p => (p, true)) ++ packGo m b [] us)

/-- A chunk as in the spec's data model (section 3): the exact substring, its half-open
offset range, and a flag recording whether it was forced by an oversized atomic unit. -/
structure Chunk where
  text : Text
  startOffset : Nat
  endOffset : Nat
  forced : Bool
deriving DecidableEq, Repr

/-- Assign contiguous half-open offset ranges to the packed chunk texts, starting at
`pos`. -/
def withOffsets : Nat → List (Text × Bool) → List Chunk
  | _, [] => []
  | pos, (t, f) :: rest => ⟨t, pos, pos + t.length, f⟩ :: withOffsets (pos + t.length) rest

/-- Embedding of the offset-to-line mapping at source lines 74-75:
`code[:offset].count("\n")`, the number of newline characters before `offset`. -/
def lineOf (text : Text) (offset : Nat) : Nat :=
  ((text.take offset).filter (fun c => c = '\n')).length

/-- An output record as assembled at source lines 77-82: id, text, startLine, endLine. -/
structure ChunkRecord where
  id : Text
  text : Text
  startLine : Nat
  endLine : Nat
deriving DecidableEq, Repr

/-- Embedding of the result assembly at source lines 72-82: derive both line numbers by
counting newlines before the chunk's offsets and build the record
`{id: f"{filepath}:{start_line}-{end_line}", text, startLine, endLine}`. -/
def toRecord (filepath : Text) (code : Text) (c : Chunk) : ChunkRecord :=
  let startLine := lineOf code c.startOffset
  let endLine := lineOf code c.endOffset
  { id := filepath ++ ':' :: (Nat.repr startLine).data ++ '-' :: (Nat.repr endLine).data
    text := c.text
    startLine := startLine
    endLine := endLine }

/-- Modelled from the spec: the core operation `chunk(sourceText, language, sizeBudget)`
(section 6), with the pluggable size metric of section 4.4 as a parameter.  A budget
`≤ 0` fails with a configuration error before any packing starts (section 4.2); the
external chonkie `CodeChunker` that realises this operation is not part of this
repository. -/
def chunkCore (m : Text → Nat) (budget : Int) (language : Text) (text : Text) :
    Except String (List Chunk) :=
  if budget ≤ 0 then
    Except.error "ConfigurationError: chunk size budget must be positive"
  else
    Except.ok (withOffsets 0 (packGo m budget.toNat [] (segmentText text language)))

/-- Embedding of `main` (source lines 19-88), restricted to its computation: resolve the
language from the filepath, run the chunker with the character-count token counter of
line 60, and assemble the output records; an error from the chunker is propagated (the
wrapper prints it to stderr and exits 1, producing no chunk output). -/
def mainModel (filepath : Text) (maxChunkSize : Int) (code : Text) :
    Except String (List ChunkRecord) :=
  match chunkCore tokenCounter maxChunkSize (langOf filepath) code with
  | Except.error e => Except.error e
  | Except.ok chunks => Except.ok (chunks.map (toRecord filepath code))

/-! ### Helper lemmas about the segmenter, packer, and offset assignment -/

/-- Line-based segmentation of a non-empty text is non-empty. -/
lemma splitLinesKeepNl_ne_nil (c : Char) (cs : Text) : splitLinesKeepNl (c :: cs) ≠ [] := by
  unfold splitLinesKeepNl
  by_cases h : c = '\n'
  · simp [h]
  · simp only [h, if_false]
    split <;> simp

/-- Concatenating the lines produced by the fallback segmentation restores the text. -/
lemma splitLinesKeepNl_flatten (t : Text) : (splitLinesKeepNl t).flatten = t := by
  induction t with
  | nil => simp [splitLinesKeepNl]
  | cons c cs ih =>
    unfold splitLinesKeepNl
    by_cases h : c = '\n'
    · simp only [h, if_true, List.flatten_cons, List.singleton_append]
      rw [ih]
    · simp only [h, if_false]
      cases hs : splitLinesKeepNl cs with
      | nil =>
        have hcs : cs = [] := by
          by_contra hne
          cases cs with
          | nil => exact hne rfl
          | cons d ds => exact splitLinesKeepNl_ne_nil d ds hs
        simp [hcs]
      | cons l ls =>
        rw [hs, List.flatten_cons] at ih
        simp only [List.flatten_cons, List.cons_append, ih]

/-- Concatenating the pieces of the raw character split restores the unit. -/
lemma rawSplit_flatten (b : Nat) (t : Text) : (rawSplit b t).flatten = t := by
  induction t using rawSplit.induct b with
  | case1 => simp [rawSplit]
  | case2 c cs ih =>
    rw [rawSplit]
    simp only [List.flatten_cons, List.cons_append, List.cons.injEq, true_and]
    rw [ih, List.take_append_drop]

/-- Coverage of the packer loop: the packed chunk texts concatenate to the open window
followed by the remaining units. -/
lemma packGo_flatten (m : Text → Nat) (b : Nat) (us : List Text) :
    ∀ w : Text, ((packGo m b w us).map Prod.fst).flatten = w ++ us.flatten := by
  induction us with
  | nil =>
    intro w
    by_cases h : w = [] <;> simp [packGo, h]
  | cons u us ih =>
    intro w
    unfold packGo
    by_cases h1 : m (w ++ u) ≤ b
    · rw [if_pos h1, ih, List.flatten_cons, List.append_assoc]
    · rw [if_neg h1]
      by_cases h2 : w = []
      · rw [if_pos h2, List.map_append, List.map_map]
        simp only [List.flatten_append, Function.comp_def, List.map_id_fun', id]
        rw [ih, rawSplit_flatten, h2, List.flatten_cons]
        simp
      · rw [if_neg h2]
        by_cases h3 : m u ≤ b
        · rw [if_pos h3, List.map_cons, List.flatten_cons, ih, List.flatten_cons]
        · rw [if_neg h3, List.map_cons, List.flatten_cons, List.map_append, List.map_map]
          simp only [List.flatten_append, Function.comp_def, List.map_id_fun', id]
          rw [ih, rawSplit_flatten, List.flatten_cons]
          simp

/-- Budget respect of the packer loop: every chunk not flagged as forced measures
within the budget, provided the open window does. -/
lemma packGo_budget (m : Text → Nat) (b : Nat) (us : List Text) :
    ∀ w : Text, (w = [] ∨ m w ≤ b) →
      ∀ p ∈ packGo m b w us, p.2 = false → m p.1 ≤ b := by
  induction us with
  | nil =>
    intro w hw p hp _
    unfold packGo at hp
    by_cases h : w = []
    · simp [h] at hp
    · simp only [h, if_false, List.mem_singleton] at hp
      subst hp
      exact hw.resolve_left h
  | cons u us ih =>
    intro w hw p hp hf
    unfold packGo at hp
    by_cases h1 : m (w ++ u) ≤ b
    · rw [if_pos h1] at hp
      exact ih (w ++ u) (Or.inr h1) p hp hf
    · rw [if_neg h1] at hp
      by_cases h2 : w = []
      · rw [if_pos h2] at hp
        rcases List.mem_append.mp hp with hp | hp
        · rcases List.mem_map.mp hp with ⟨q, _, hq⟩
          rw [← hq] at hf; simp at hf
        · exact ih [] (Or.inl rfl) p hp hf
      · rw [if_neg h2] at hp
        rcases List.mem_cons.mp hp with hp | hp
        · subst hp
          exact hw.resolve_left h2
        · by_cases h3 : m u ≤ b
          · rw [if_pos h3] at hp
            exact ih u (Or.inr h3) p hp hf
          · rw [if_neg h3] at hp
            rcases List.mem_append.mp hp with hp | hp
            · rcases List.mem_map.mp hp with ⟨q, _, hq⟩
              rw [← hq] at hf; simp at hf
            · exact ih [] (Or.inl rfl) p hp hf

/-- Offset assignment preserves the chunk texts. -/
lemma withOffsets_map_text (l : List (Text × Bool)) :
    ∀ pos, (withOffsets pos l).map Chunk.text = l.map Prod.fst := by
  induction l with
  | nil => intro pos; simp [withOffsets]
  | cons p rest ih =>
    intro pos
    cases p with
    | mk t f => simp [withOffsets, ih]

/-- Every chunk produced by offset assignment carries a packed pair's text and flag. -/
lemma withOffsets_mem (l : List (Text × Bool)) :
    ∀ pos, ∀ c ∈ withOffsets pos l, (c.text, c.forced) ∈ l := by
  induction l with
  | nil => intro pos c hc; simp [withOffsets] at hc
  | cons p rest ih =>
    intro pos c hc
    cases p with
    | mk t f =>
      simp only [withOffsets, List.mem_cons] at hc
      rcases hc with hc | hc
      · subst hc; simp
      · exact List.mem_cons_of_mem _ (ih _ c hc)

/-- Unfolding of a successful chunkCore run: a positive budget yields exactly the
offset-assigned packing of the line segmentation. -/
lemma chunkCore_ok (m : Text → Nat) (budget : Int) (language text : Text)
    (hb : 0 < budget) (cs : List Chunk)
    (h : chunkCore m budget language text = Except.ok cs) :
    cs = withOffsets 0 (packGo m budget.toNat [] (segmentText text language)) := by
  unfold chunkCore at h
  rw [if_neg (not_le.mpr hb)] at h
  simp only [Except.ok.injEq] at h
  exact h.symm

/-- Offset assignment produces contiguous ranges: each chunk ends where the next one
starts. -/
lemma withOffsets_chain (l : List (Text × Bool)) :
    ∀ pos, List.Chain' (fun c₁ c₂ => c₁.endOffset = c₂.startOffset) (withOffsets pos l) := by
  induction l with
  | nil => intro pos; simp [withOffsets]
  | cons p rest ih =>
    intro pos
    cases p with
    | mk t f =>
      rw [withOffsets, List.chain'_cons']
      refine ⟨?_, ih _⟩
      intro y hy
      cases rest with
      | nil => simp [withOffsets] at hy
      | cons q rest' =>
        cases q with
        | mk t' f' =>
          simp only [withOffsets, List.head?_cons, Option.mem_some_iff] at hy
          subst hy
          rfl

/-! ### Claim theorems -/

/-- Claim C1: for every input source text, language, and positive size budget,
concatenating the `text` fields of all returned chunks in output order yields exactly
the original source text, with no byte lost, duplicated, or reordered. -/
theorem C1_coverage (m : Text → Nat) (budget : Int) (language text : Text)
    (hb : 0 < budget) (cs : List Chunk)
    (h : chunkCore m budget language text = Except.ok cs) :
    (cs.map Chunk.text).flatten = text := by
  rw [chunkCore_ok m budget language text hb cs h]
  rw [withOffsets_map_text, packGo_flatten]
  rw [List.nil_append]
  exact splitLinesKeepNl_flatten text

/-- Witness for C1 at a concrete input. -/
theorem C1_coverage_witness :
    (0 : Int) < 10 ∧
    chunkCore tokenCounter 10 "python".data "ab\ncd".data =
      Except.ok [⟨"ab\ncd".data, 0, 5, false⟩] ∧
    (([⟨"ab\ncd".data, 0, 5, false⟩] : List Chunk).map Chunk.text).flatten = "ab\ncd".data :=
  ⟨by decide, by decide,
    C1_coverage tokenCounter 10 "python".data "ab\ncd".data (by decide) _ (by decide)⟩

/-- Claim C2: for every chunk in the output that was not forced by an oversized atomic
unit, the size metric applied to that chunk's text is within the configured size
budget. -/
theorem C2_budget_respect (m : Text → Nat) (budget : Int) (language text : Text)
    (hb : 0 < budget) (cs : List Chunk)
    (h : chunkCore m budget language text = Except.ok cs) :
    ∀ c ∈ cs, c.forced = false → (m c.text : Int) ≤ budget := by
  intro c hc hforced
  rw [chunkCore_ok m budget language text hb cs h] at hc
  have hmem := withOffsets_mem _ _ c hc
  have hle := packGo_budget m budget.toNat (segmentText text language) []
    (Or.inl rfl) (c.text, c.forced) hmem hforced
  calc (m c.text : Int) ≤ (budget.toNat : Int) := by exact_mod_cast hle
    _ = budget := Int.toNat_of_nonneg (le_of_lt hb)

/-- Witness for C2 at a concrete input. -/
theorem C2_budget_respect_witness :
    (0 : Int) < 3 ∧
    chunkCore tokenCounter 3 "python".data " a\n b\n".data =
      Except.ok [⟨" a\n".data, 0, 3, false⟩, ⟨" b\n".data, 3, 6, false⟩] ∧
    (∀ c ∈ ([⟨" a\n".data, 0, 3, false⟩, ⟨" b\n".data, 3, 6, false⟩] : List Chunk),
      c.forced = false → (tokenCounter c.text : Int) ≤ 3) :=
  ⟨by decide, by decide,
    C2_budget_respect tokenCounter 3 "python".data " a\n b\n".data (by decide) _ (by decide)⟩

/-- Claim C3, counterexample: the size metric actually used for budget comparisons is
the token counter `lambda x: len(x)` of source line 60 (raw character length), not the
non-whitespace count `count_nws`.  On the concrete input below the pipeline returns two
chunks, while a non-whitespace-counting chunker would return one, and the two metrics
disagree on a concrete string. -/
theorem C3_metric_counterexample :
    mainModel "f.py".data 3 " a\n b\n".data =
      Except.ok [⟨"f.py:0-1".data, " a\n".data, 0, 1⟩, ⟨"f.py:1-2".data, " b\n".data, 1, 2⟩] ∧
    chunkCore count_nws 3 "python".data " a\n b\n".data =
      Except.ok [⟨" a\n b\n".data, 0, 6, false⟩] ∧
    tokenCounter [' ', 'a'] ≠ count_nws [' ', 'a'] :=
  ⟨by decide, by decide, by decide⟩

/-- Claim C3, amended: the size metric actually used for budget comparisons during
chunking is the raw character length of the candidate text (the `lambda x: len(x)` of
source line 60), not the non-whitespace count; `count_nws` is defined in the source but
not used in budget comparisons.  Non-forced chunks respect the budget under the raw
character-length metric. -/
theorem C3_amended_raw_length_metric (filepath : Text) (budget : Int) (code : Text)
    (hb : 0 < budget) (cs : List Chunk)
    (h : chunkCore tokenCounter budget (langOf filepath) code = Except.ok cs) :
    mainModel filepath budget code = Except.ok (cs.map (toRecord filepath code)) ∧
    (∀ c ∈ cs, c.forced = false → (c.text.length : Int) ≤ budget) := by
  constructor
  · unfold mainModel
    rw [h]
  · intro c hc hforced
    rw [chunkCore_ok tokenCounter budget (langOf filepath) code hb cs h] at hc
    have hmem := withOffsets_mem _ _ c hc
    have hle := packGo_budget tokenCounter budget.toNat (segmentText code (langOf filepath)) []
      (Or.inl rfl) (c.text, c.forced) hmem hforced
    calc (c.text.length : Int) ≤ (budget.toNat : Int) := by exact_mod_cast hle
      _ = budget := Int.toNat_of_nonneg (le_of_lt hb)

/-- Witness for the amended C3 at a concrete input. -/
theorem C3_amended_raw_length_metric_witness :
    (0 : Int) < 3 ∧
    chunkCore tokenCounter 3 (langOf "f.py".data) " a\n b\n".data =
      Except.ok [⟨" a\n".data, 0, 3, false⟩, ⟨" b\n".data, 3, 6, false⟩] ∧
    (mainModel "f.py".data 3 " a\n b\n".data =
      Except.ok (([⟨" a\n".data, 0, 3, false⟩, ⟨" b\n".data, 3, 6, false⟩] : List Chunk).map
        (toRecord "f.py".data " a\n b\n".data)) ∧
     ∀ c ∈ ([⟨" a\n".data, 0, 3, false⟩, ⟨" b\n".data, 3, 6, false⟩] : List Chunk),
       c.forced = false → (c.text.length : Int) ≤ 3) :=
  ⟨by decide, by decide,
    C3_amended_raw_length_metric "f.py".data 3 " a\n b\n".data (by decide) _ (by decide)⟩

/-- Claim C4: for every chunk in the output, `startLine` equals the number of newline
characters in the source text before the chunk's start offset and `endLine` the number
before its end offset; both are 0-based non-negative integers. -/
theorem C4_line_numbers (filepath : Text) (budget : Int) (code : Text)
    (cs : List Chunk) (recs : List ChunkRecord)
    (hcs : chunkCore tokenCounter budget (langOf filepath) code = Except.ok cs)
    (hrecs : mainModel filepath budget code = Except.ok recs) :
    List.Forall₂ (fun c r =>
      r.startLine = ((code.take c.startOffset).filter (fun ch => ch = '\n')).length ∧
      r.endLine = ((code.take c.endOffset).filter (fun ch => ch = '\n')).length ∧
      0 ≤ r.startLine ∧ 0 ≤ r.endLine) cs recs := by
  unfold mainModel at hrecs
  rw [hcs] at hrecs
  simp only [Except.ok.injEq] at hrecs
  subst hrecs
  rw [List.forall₂_map_right_iff, List.forall₂_same]
  intro c _
  exact ⟨rfl, rfl, Nat.zero_le _, Nat.zero_le _⟩

/-- Witness for C4 at a concrete input. -/
theorem C4_line_numbers_witness :
    chunkCore tokenCounter 10 (langOf "a.py".data) "ab\ncd".data =
      Except.ok [⟨"ab\ncd".data, 0, 5, false⟩] ∧
    mainModel "a.py".data 10 "ab\ncd".data =
      Except.ok [⟨"a.py:0-1".data, "ab\ncd".data, 0, 1⟩] ∧
    List.Forall₂ (fun (c : Chunk) (r : ChunkRecord) =>
      r.startLine = (("ab\ncd".data.take c.startOffset).filter (fun ch => ch = '\n')).length ∧
      r.endLine = (("ab\ncd".data.take c.endOffset).filter (fun ch => ch = '\n')).length ∧
      0 ≤ r.startLine ∧ 0 ≤ r.endLine)
      [⟨"ab\ncd".data, 0, 5, false⟩] [⟨"a.py:0-1".data, "ab\ncd".data, 0, 1⟩] :=
  ⟨by decide, by decide,
    C4_line_numbers "a.py".data 10 "ab\ncd".data _ _ (by decide) (by decide)⟩

/-- Claim C5: chunking the empty source text with any positive budget returns an empty
chunk sequence and does not fail with an error, both for the core operation and for the
full wrapper pipeline. -/
theorem C5_empty_input (m : Text → Nat) (budget : Int) (language filepath : Text)
    (hb : 0 < budget) :
    chunkCore m budget language [] = Except.ok [] ∧
    mainModel filepath budget [] = Except.ok [] := by
  have hcore : ∀ (m' : Text → Nat) (l : Text), chunkCore m' budget l [] = Except.ok [] := by
    intro m' l
    unfold chunkCore
    rw [if_neg (not_le.mpr hb)]
    rfl
  refine ⟨hcore m language, ?_⟩
  unfold mainModel
  rw [hcore tokenCounter (langOf filepath)]
  rfl

/-- Witness for C5 at a concrete input. -/
theorem C5_empty_input_witness :
    (0 : Int) < 1 ∧
    (chunkCore tokenCounter 1 "python".data [] = Except.ok [] ∧
     mainModel "a.py".data 1 [] = Except.ok []) :=
  ⟨by decide, C5_empty_input tokenCounter 1 "python".data "a.py".data (by decide)⟩

/-- Claim C6: for every input, a size budget that is not positive fails with a
configuration error before any packing starts, and no partial chunk output is
produced (the operation returns only the error). -/
theorem C6_invalid_budget (m : Text → Nat) (budget : Int) (language text filepath code : Text)
    (hb : budget ≤ 0) :
    chunkCore m budget language text =
      Except.error "ConfigurationError: chunk size budget must be positive" ∧
    mainModel filepath budget code =
      Except.error "ConfigurationError: chunk size budget must be positive" := by
  have hcore : ∀ (m' : Text → Nat) (l t : Text),
      chunkCore m' budget l t =
        Except.error "ConfigurationError: chunk size budget must be positive" := by
    intro m' l t
    unfold chunkCore
    rw [if_pos hb]
  refine ⟨hcore m language text, ?_⟩
  unfold mainModel
  rw [hcore tokenCounter (langOf filepath) code]

/-- Witness for C6 at a concrete input. -/
theorem C6_invalid_budget_witness :
    (0 : Int) ≤ 0 ∧
    (chunkCore tokenCounter 0 "python".data "ab".data =
      Except.error "ConfigurationError: chunk size budget must be positive" ∧
     mainModel "a.py".data 0 "ab".data =
      Except.error "ConfigurationError: chunk size budget must be positive") :=
  ⟨by decide,
    C6_invalid_budget tokenCounter 0 "python".data "ab".data "a.py".data "ab".data (by decide)⟩

/-- Claim C7: the chunking operation is deterministic — identical source text, language
or filepath, and size budget produce identical chunk sequences (same texts, offsets,
line numbers, and order).  The embedded pipeline is a pure function of its inputs. -/
theorem C7_determinism (m : Text → Nat) (t₁ t₂ l₁ l₂ fp₁ fp₂ : Text) (b₁ b₂ : Int)
    (ht : t₁ = t₂) (hl : l₁ = l₂) (hfp : fp₁ = fp₂) (hb : b₁ = b₂) :
    chunkCore m b₁ l₁ t₁ = chunkCore m b₂ l₂ t₂ ∧
    mainModel fp₁ b₁ t₁ = mainModel fp₂ b₂ t₂ := by
  subst ht; subst hl; subst hfp; subst hb
  exact ⟨rfl, rfl⟩

/-- Witness for C7 at a concrete input. -/
theorem C7_determinism_witness :
    ("a\nb".data = "a\nb".data) ∧
    (chunkCore tokenCounter 5 "python".data "a\nb".data =
       chunkCore tokenCounter 5 "python".data "a\nb".data ∧
     mainModel "x.py".data 5 "a\nb".data = mainModel "x.py".data 5 "a\nb".data) :=
  ⟨rfl, C7_determinism tokenCounter "a\nb".data "a\nb".data "python".data "python".data
    "x.py".data "x.py".data 5 5 rfl rfl rfl rfl⟩

/-- Claim C8: in every output chunk sequence, each chunk's `endLine` is at most the
next chunk's `startLine`, and all line numbers are non-negative. -/
theorem C8_monotonic_lines (filepath : Text) (budget : Int) (code : Text)
    (recs : List ChunkRecord) (h : mainModel filepath budget code = Except.ok recs) :
    List.Chain' (fun r₁ r₂ => r₁.endLine ≤ r₂.startLine) recs ∧
    ∀ r ∈ recs, 0 ≤ r.startLine ∧ 0 ≤ r.endLine := by
  unfold mainModel at h
  cases hc : chunkCore tokenCounter budget (langOf filepath) code with
  | error e => rw [hc] at h; exact absurd h (by simp)
  | ok cs =>
    rw [hc] at h
    simp only [Except.ok.injEq] at h
    subst h
    have hb : 0 < budget := by
      by_contra hle
      unfold chunkCore at hc
      rw [if_pos (not_lt.mp hle)] at hc
      exact absurd hc (by simp)
    constructor
    · rw [List.chain'_map, chunkCore_ok tokenCounter budget (langOf filepath) code hb cs hc]
      exact (withOffsets_chain _ 0).imp
        (fun _ _ h12 => le_of_eq (congrArg (lineOf code) h12))
    · intro r _
      exact ⟨Nat.zero_le _, Nat.zero_le _⟩

/-- Witness for C8 at a concrete input. -/
theorem C8_monotonic_lines_witness :
    mainModel "f.py".data 3 " a\n b\n".data =
      Except.ok [⟨"f.py:0-1".data, " a\n".data, 0, 1⟩, ⟨"f.py:1-2".data, " b\n".data, 1, 2⟩] ∧
    (List.Chain' (fun r₁ r₂ => r₁.endLine ≤ r₂.startLine)
      [⟨"f.py:0-1".data, " a\n".data, 0, 1⟩,
       (⟨"f.py:1-2".data, " b\n".data, 1, 2⟩ : ChunkRecord)] ∧
     ∀ r ∈ [(⟨"f.py:0-1".data, " a\n".data, 0, 1⟩ : ChunkRecord),
            ⟨"f.py:1-2".data, " b\n".data, 1, 2⟩], 0 ≤ r.startLine ∧ 0 ≤ r.endLine) :=
  ⟨by decide, C8_monotonic_lines "f.py".data 3 " a\n b\n".data _ (by decide)⟩

/-- Claim C9: the non-whitespace character count of a string never exceeds its raw
character length, so any chunk text whose raw length is within the budget also has a
non-whitespace size within the budget. -/
theorem C9_nws_le_length (t : Text) (budget : Nat) (h : tokenCounter t ≤ budget) :
    count_nws t ≤ tokenCounter t ∧ count_nws t ≤ budget := by
  have h1 : count_nws t ≤ tokenCounter t := List.length_filter_le _ _
  exact ⟨h1, le_trans h1 h⟩

/-- Witness for C9 at a concrete input. -/
theorem C9_nws_le_length_witness :
    tokenCounter [' ', 'a'] ≤ 5 ∧
    (count_nws [' ', 'a'] ≤ tokenCounter [' ', 'a'] ∧ count_nws [' ', 'a'] ≤ 5) :=
  ⟨by decide, C9_nws_le_length [' ', 'a'] 5 (by decide)⟩

/-- Claim C10: for every filepath whose extension (the part after the last dot,
lowercased) is not a key of the extension-to-language table, including filepaths with
no dot at all, the resolved language is exactly "python"; language resolution is total
and raises no unsupported-language error. -/
theorem C10_default_language (filepath : Text)
    (h : lang_map.lookup (extOf filepath) = none) :
    langOf filepath = "python".data := by
  unfold langOf
  rw [h]
  rfl

/-- Witness for C10 at a concrete input. -/
theorem C10_default_language_witness :
    lang_map.lookup (extOf "notes.txt".data) = none ∧
    langOf "notes.txt".data = "python".data :=
  ⟨by decide, C10_default_language "notes.txt".data (by decide)⟩

end CodeChunk
